import Mathlib

/-!
# Verification of the BSP-tree CSG core (`src/app/geometry/csg.ts`)

A shallow embedding of the constructive-solid-geometry engine built on
binary space partitioning trees.  Numbers are embedded as rationals (`ℚ`);
the JavaScript heap references are embedded with value semantics: the
`$parent` back-reference of a split fragment is represented by the chain of
ancestor polygon records, and the in-place mutations of the source
(`csg_tree_flip`, `csg_tree_clipTo`, …) are represented by functions
returning the updated tree.
-/

set_option autoImplicit false

/- The Batteries definitions of rational arithmetic are marked irreducible,
which blocks `decide` on concrete rational computations; inside the
evaluation sections below their default reducibility is restored locally so
that concrete runs of the embedded code evaluate. -/

/-- A 3-d vector, `Vec3In` of the source. -/
structure Vec3 where
  x : ℚ
  y : ℚ
  z : ℚ
deriving DecidableEq, Repr

/-- A plane: normal `(x, y, z)` together with offset `w` (`Plane` of the source;
`CSGNode` extends it). -/
structure Plane where
  x : ℚ
  y : ℚ
  z : ℚ
  w : ℚ
deriving DecidableEq, Repr

/-- The normal part of a plane (the source reads the `x`,`y`,`z` fields of
a `Plane`/`CSGNode` directly when it uses it as a vector). -/
def Plane.normal (pl : Plane) : Vec3 := ⟨pl.x, pl.y, pl.z⟩

/-- Modelled from the spec: `vec3_dot` of the repository's `math/vectors`
module (not under `src/`): "Vector3 dot product (and, for plane·point,
ignores w)". -/
def vec3_dot (a b : Vec3) : ℚ := a.x * b.x + a.y * b.y + a.z * b.z

/-- `PLANE_EPSILON = 0.00008` of the source. -/
def PLANE_EPSILON : ℚ := 8 / 100000

/-- The signed distance `vec3_dot(plane, p) - plane.w` computed at source
lines 30, 37 and 79. -/
def planeDist (pl : Plane) (p : Vec3) : ℚ := vec3_dot pl.normal p - pl.w

/-- An input/output polygon (`Polygon` of `geometry.ts`): a color tag and a
list of points. -/
structure Polygon where
  color : ℕ
  points : List Vec3
deriving DecidableEq, Repr

/-- The mutable per-polygon record: color, points and the `$flipped` bit. -/
structure PolyData where
  color : ℕ
  points : List Vec3
  flipped : Bool
deriving DecidableEq, Repr

/-- `CSGPolygon` of the source: a polygon record plus its `$parent` chain.
The JavaScript `$parent : CSGPolygon | null` reference is embedded by the
list of ancestor records (`[]` embeds `null`; the head of `ancestors` is the
record of the direct parent and the tail is the parent's own ancestor
chain). -/
structure CSGPolygon where
  data : PolyData
  ancestors : List PolyData
deriving DecidableEq, Repr

/-- The `$parent` field: `none` embeds `null`. -/
def CSGPolygon.parent (p : CSGPolygon) : Option CSGPolygon :=
  match p.ancestors with
  | [] => none
  | a :: r => some ⟨a, r⟩

/-- `SplitPolygonResult` of the source; the falsy values `undefined` and
`false` are both embedded as `none`. -/
structure SplitPolygonResult where
  front : Option CSGPolygon
  back : Option CSGPolygon
deriving DecidableEq, Repr

/-- The edge walk of `CSGPolygon_splitSpanning` (source lines 35-56): `iv`
is the previous vertex and `d` its signed distance; the returned pair is
`(fpoints, bpoints)`. -/
def splitSpanningLoop (pl : Plane) : Vec3 → ℚ → List Vec3 → List Vec3 × List Vec3
  | _, _, [] => ([], [])
  | iv, d, jv :: rest =>
    let jd := planeDist pl jv
    let r0 := splitSpanningLoop pl jv jd rest
    let fHere : List Vec3 := if d > -PLANE_EPSILON then [iv] else []
    let bHere : List Vec3 := if d < PLANE_EPSILON then [iv] else []
    if (d < -PLANE_EPSILON ∧ jd > PLANE_EPSILON) ∨ (d > PLANE_EPSILON ∧ jd < -PLANE_EPSILON) then
      let t := -d / (pl.x * (jv.x - iv.x) + pl.y * (jv.y - iv.y) + pl.z * (jv.z - iv.z))
      let v : Vec3 := ⟨(jv.x - iv.x) * t + iv.x, (jv.y - iv.y) * t + iv.y, (jv.z - iv.z) * t + iv.z⟩
      (fHere ++ v :: r0.1, bHere ++ v :: r0.2)
    else
      (fHere ++ r0.1, bHere ++ r0.2)

/-- The two output vertex lists of the spanning split: the walk starts with
`iv = $points[$points.length - 1]` (source line 29). -/
def CSGPolygon_splitSpanning_lists (pl : Plane) (pts : List Vec3) : List Vec3 × List Vec3 :=
  match pts.getLast? with
  | none => ([], [])
  | some iv0 => splitSpanningLoop pl iv0 (planeDist pl iv0) pts

/-- `CSGPolygon_splitSpanning` (source lines 25-71): each fragment is
produced only when its vertex list has more than 2 entries; fragments
inherit color and the flipped bit and record the split polygon as parent. -/
def CSGPolygon_splitSpanning (pl : Plane) (polygon : CSGPolygon) : SplitPolygonResult :=
  let L := CSGPolygon_splitSpanning_lists pl polygon.data.points
  { front :=
      if L.1.length > 2 then
        some ⟨⟨polygon.data.color, L.1, polygon.data.flipped⟩, polygon.data :: polygon.ancestors⟩
      else none
    back :=
      if L.2.length > 2 then
        some ⟨⟨polygon.data.color, L.2, polygon.data.flipped⟩, polygon.data :: polygon.ancestors⟩
      else none }

/-- `CSGPolygon_split` (source lines 73-87): the classification pass sets
the back flag when some vertex has `t < -ε` and the front flag when some
vertex has `t > ε` (the `else if` of line 82); a polygon with both flags is
passed to the spanning split. -/
def CSGPolygon_split (pl : Plane) (polygon : CSGPolygon) : SplitPolygonResult :=
  let fb := polygon.data.points.foldl
    (fun (fb : Bool × Bool) p =>
      let t := planeDist pl p
      if t < -PLANE_EPSILON then (fb.1, true)
      else if t > PLANE_EPSILON then (true, fb.2)
      else fb)
    (false, false)
  if fb.1 ∧ fb.2 then CSGPolygon_splitSpanning pl polygon
  else { front := if fb.1 then some polygon else none
         back := if fb.2 then some polygon else none }

/-- A BSP tree.  `nil` embeds the JavaScript `null`; `node` is a `CSGNode`
of the source: a plane, the bundle of coplanar polygons, and the two
children (source lines 89-96). -/
inductive CSGTree where
  | nil : CSGTree
  | node (plane : Plane) (polygons : List CSGPolygon) (front back : CSGTree) : CSGTree
deriving DecidableEq, Repr

/-- `csg_tree_addPolygon` (source lines 98-127).  The in-place rewrites of
`node.$front`, `node.$back` and the push onto `node.$polygons` are embedded
by returning the updated node. -/
def csg_tree_addPolygon : CSGTree → CSGPolygon → Vec3 → ℚ → CSGTree
  | .nil, p, n, w => .node ⟨n.x, n.y, n.z, w⟩ [p] .nil .nil
  | .node pl polys fc bc, p, n, w =>
    let s := CSGPolygon_split pl p
    let fc' := match s.front with
      | some f => csg_tree_addPolygon fc f n w
      | none => fc
    let bc' := match s.back with
      | some b => csg_tree_addPolygon bc b n w
      | none => bc
    let polys' := if s.front = none ∧ s.back = none then polys ++ [p] else polys
    .node pl polys' fc' bc'

/-- Modelled from the spec: exact rational square root, used only to embed
the normalization inside `vec3_polygonNormal`; it is exact whenever
numerator and denominator are perfect squares, which holds for every
concrete (axis-aligned) input used below. -/
def ratSqrt (q : ℚ) : ℚ := (Nat.sqrt q.num.toNat : ℚ) / (Nat.sqrt q.den : ℚ)

/-- Modelled from the spec: `vec3_polygonNormal` of the repository's
`math/vectors` module (not under `src/`): "returns the unit normal of the
triangle, right-hand rule", i.e. `normalize((p1-p0) × (p2-p0))`; fewer than
three points is undefined behaviour in the source and is mapped to the zero
vector. -/
def vec3_polygonNormal (pts : List Vec3) : Vec3 :=
  match pts with
  | p0 :: p1 :: p2 :: _ =>
    let u : Vec3 := ⟨p1.x - p0.x, p1.y - p0.y, p1.z - p0.z⟩
    let v : Vec3 := ⟨p2.x - p0.x, p2.y - p0.y, p2.z - p0.z⟩
    let c : Vec3 := ⟨u.y * v.z - u.z * v.y, u.z * v.x - u.x * v.z, u.x * v.y - u.y * v.x⟩
    let len := ratSqrt (vec3_dot c c)
    ⟨c.x / len, c.y / len, c.z / len⟩
  | _ => ⟨0, 0, 0⟩

/-- `CSGInput` of the source: a list of polygons or an already built tree. -/
abbrev CSGInput := List Polygon ⊕ CSGTree

/-- `csg_tree` (source lines 133-149): build a BSP tree from a polygon list
(the empty list leaves `root` undefined, embedded by `nil`), or return a
tree argument as is. -/
def csg_tree : CSGInput → CSGTree
  | .inl list =>
    list.foldl
      (fun root poly =>
        let normal := vec3_polygonNormal poly.points
        csg_tree_addPolygon root ⟨⟨poly.color, poly.points, false⟩, []⟩ normal
          (vec3_dot normal (poly.points.headD ⟨0, 0, 0⟩)))
      .nil
  | .inr t => t

/-- Toggling `polygon.$flipped` (source line 164). -/
def flipPoly (p : CSGPolygon) : CSGPolygon :=
  ⟨⟨p.data.color, p.data.points, !p.data.flipped⟩, p.ancestors⟩

/-- `csg_tree_flip` (source lines 160-172): the visitor negates the plane,
toggles every bundled polygon and swaps the children; since `csg_tree_each`
applies the visitor before descending, the recursion runs on the swapped
children, so every node is visited exactly once. -/
def csg_tree_flip : CSGTree → CSGTree
  | .nil => .nil
  | .node pl polys fc bc =>
    .node ⟨-pl.x, -pl.y, -pl.z, -pl.w⟩ (polys.map flipPoly)
      (csg_tree_flip bc) (csg_tree_flip fc)

/-- Whether a tree value is the embedded `null` (the JavaScript truthiness
test on a child node). -/
def CSGTree.isNil : CSGTree → Bool
  | .nil => true
  | .node _ _ _ _ => false

/-- `csg_tree_clipPolygon` (source lines 174-196).  The `result` array is
threaded as an accumulator; pushes append on the right.  A present front
fragment recurses into the front child when there is one and survives into
`result` otherwise; a present back fragment recurses into the back child
when there is one and is dropped otherwise. -/
def csg_tree_clipPolygon : CSGTree → CSGPolygon → Plane → List CSGPolygon → List CSGPolygon
  | .nil, _, _, result => result
  | .node pl _polys fc bc, polygon, polygonPlane, result =>
    let s := CSGPolygon_split pl polygon
    let fb : Option CSGPolygon × Option CSGPolygon :=
      if s.front = none ∧ s.back = none then
        -- Coplanar
        if vec3_dot pl.normal polygonPlane.normal > pl.w then (some polygon, none)
        else (none, some polygon)
      else (s.front, s.back)
    let result1 :=
      fb.1.elim result (fun f =>
        if fc.isNil then result ++ [f] else csg_tree_clipPolygon fc f polygonPlane result)
    fb.2.elim result1 (fun b =>
      if bc.isNil then result1 else csg_tree_clipPolygon bc b polygonPlane result1)

/-- `csg_tree_clipTo` (source lines 198-206): every node's bundle is
replaced by the polygons that survive clipping against `bsp`; the node
itself (a `Plane`) is passed as the polygon's plane. -/
def csg_tree_clipTo : CSGTree → CSGTree → CSGTree
  | .nil, _ => .nil
  | .node pl polys fc bc, bsp =>
    .node pl (polys.foldl (fun clipped p => csg_tree_clipPolygon bsp p pl clipped) [])
      (csg_tree_clipTo fc bsp) (csg_tree_clipTo bc bsp)

/-- The pre-order node list of `csg_tree_each` (source lines 151-157). -/
def preorderNodes : CSGTree → List (Plane × List CSGPolygon)
  | .nil => []
  | .node pl polys fc bc => (pl, polys) :: (preorderNodes fc ++ preorderNodes bc)

/-- `csg_tree_addTree` (source lines 208-213): insert every polygon of every
`source` node into `tree`, using the source node's plane. -/
def csg_tree_addTree (tree source : CSGTree) : CSGTree :=
  (preorderNodes source).foldl
    (fun t e => e.2.foldl (fun t' p => csg_tree_addPolygon t' p ⟨e.1.x, e.1.y, e.1.z⟩ e.1.w) t)
    tree

/-- `csg_union_op` (source lines 215-227).  `b` is checked for truthiness;
the mutations of `a` are embedded by threading the updated trees. -/
def csg_union_op (a : CSGInput) (b : Option CSGInput) : CSGTree :=
  let ta := csg_tree a
  match b with
  | none => ta
  | some bIn =>
    let tb := csg_tree bIn
    let ta1 := csg_tree_clipTo ta tb
    let tb1 := csg_tree_clipTo tb ta1
    let tb2 := csg_tree_flip tb1
    let tb3 := csg_tree_clipTo tb2 ta1
    let tb4 := csg_tree_flip tb3
    csg_tree_addTree ta1 tb4

/-- `csg_union` (source line 229): `inputs.reduce(csg_union_op)`.  A
JavaScript `reduce` without initial value throws on an empty array
(embedded by `none`) and returns the sole element, without invoking the
callback, on a singleton. -/
def csg_union (inputs : List CSGInput) : Option CSGInput :=
  match inputs with
  | [] => none
  | h :: t => some (t.foldl (fun acc x => Sum.inr (csg_union_op acc (some x))) h)

/-- `csg_subtract` (source lines 231-237). -/
def csg_subtract (a b : CSGInput) : CSGTree :=
  let ta := csg_tree a
  let ta1 := csg_tree_flip ta
  let ta2 := csg_union_op (Sum.inr ta1) (some b)
  csg_tree_flip ta2

/-- `csg_intersect` (source lines 239-250). -/
def csg_intersect (a b : CSGInput) : CSGTree :=
  let ta := csg_tree a
  let ta1 := csg_tree_flip ta
  let tb := csg_tree b
  let tb1 := csg_tree_clipTo tb ta1
  let tb2 := csg_tree_flip tb1
  let ta2 := csg_tree_clipTo ta1 tb2
  let tb3 := csg_tree_clipTo tb2 ta2
  let ta3 := csg_tree_addTree ta2 tb3
  csg_tree_flip ta3

/-- Lookup in an insertion-ordered association list (a JavaScript `Map`). -/
def mapGet {α β : Type} [DecidableEq α] (m : List (α × β)) (k : α) : Option β :=
  (m.find? (fun e => decide (e.1 = k))).map (·.2)

/-- `Map.set`: update in place when the key is present, append otherwise. -/
def mapSet {α β : Type} [DecidableEq α] (m : List (α × β)) (k : α) (v : β) : List (α × β) :=
  if m.any (fun e => decide (e.1 = k)) then
    m.map (fun e => if e.1 = k then (k, v) else e)
  else m ++ [(k, v)]

/-- `Map.delete`. -/
def mapDelete {α β : Type} [DecidableEq α] (m : List (α × β)) (k : α) : List (α × β) :=
  m.filter (fun e => decide (e.1 ≠ k))

/-- The inner `add` of `csg_polygons` (source lines 258-271), by recursion
on the parent chain: when the polygon's parent already has a recorded
sibling in `byParent`, delete that sibling from `allPolygons` and emit the
parent recursively; otherwise record this polygon as the parent's first
seen child.  Arguments: `byParent`, `allPolygons`, the polygon's record and
its ancestor chain. -/
def csgAddAux (byP : List (CSGPolygon × CSGPolygon)) :
    List (CSGPolygon × Bool) → PolyData → List PolyData →
    CSGPolygon × List (CSGPolygon × CSGPolygon) × List (CSGPolygon × Bool)
  | allP, d, [] => (⟨d, []⟩, byP, allP)
  | allP, d, a :: r =>
    match mapGet byP ⟨a, r⟩ with
    | some found => csgAddAux byP (mapDelete allP found) a r
    | none => (⟨d, a :: r⟩, mapSet byP ⟨a, r⟩ ⟨d, a :: r⟩, allP)

/-- The `add` of `csg_polygons` applied to a polygon. -/
def csgAdd (byP : List (CSGPolygon × CSGPolygon)) (allP : List (CSGPolygon × Bool))
    (p : CSGPolygon) :
    CSGPolygon × List (CSGPolygon × CSGPolygon) × List (CSGPolygon × Bool) :=
  csgAddAux byP allP p.data p.ancestors

/-- `csg_polygons` (source lines 252-287): walk the tree in pre-order,
feed every bundled polygon through `add` recording its flipped bit, then
emit fresh output polygons, reversing the points of flipped ones. -/
def csg_polygons (tree : CSGTree) : List Polygon :=
  let st :=
    (preorderNodes tree).foldl
      (fun st e =>
        e.2.foldl
          (fun (st : List (CSGPolygon × CSGPolygon) × List (CSGPolygon × Bool)) p =>
            let r := csgAdd st.1 st.2 p
            (r.2.1, mapSet r.2.2 r.1 p.data.flipped))
          st)
      ([], [])
  st.2.map (fun e =>
    let pts := e.1.data.points.map (fun v => (⟨v.x, v.y, v.z⟩ : Vec3))
    { color := e.1.data.color, points := if e.2 then pts.reverse else pts })

/-! ## Concrete inputs used by witnesses and counterexamples -/

/-- The quadrilateral `p0, p0+u, p0+u+v, p0+v` (normal `u × v`). -/
def cubeQuad (p0 u v : Vec3) (c : ℕ) : Polygon :=
  ⟨c, [p0, ⟨p0.x + u.x, p0.y + u.y, p0.z + u.z⟩,
       ⟨p0.x + u.x + v.x, p0.y + u.y + v.y, p0.z + u.z + v.z⟩,
       ⟨p0.x + v.x, p0.y + v.y, p0.z + v.z⟩]⟩

/-- The axis-aligned unit cube centered at the origin, as six outward-wound
quads. -/
def unitCube : List Polygon :=
  [ cubeQuad ⟨1/2, -(1/2), -(1/2)⟩ ⟨0, 1, 0⟩ ⟨0, 0, 1⟩ 0,
    cubeQuad ⟨-(1/2), -(1/2), -(1/2)⟩ ⟨0, 0, 1⟩ ⟨0, 1, 0⟩ 1,
    cubeQuad ⟨-(1/2), 1/2, -(1/2)⟩ ⟨0, 0, 1⟩ ⟨1, 0, 0⟩ 2,
    cubeQuad ⟨-(1/2), -(1/2), -(1/2)⟩ ⟨1, 0, 0⟩ ⟨0, 0, 1⟩ 3,
    cubeQuad ⟨-(1/2), -(1/2), 1/2⟩ ⟨1, 0, 0⟩ ⟨0, 1, 0⟩ 4,
    cubeQuad ⟨-(1/2), -(1/2), -(1/2)⟩ ⟨0, 1, 0⟩ ⟨1, 0, 0⟩ 5 ]

/-- Whether a `CSGInput` value is a built tree. -/
def csg_input_isTree : CSGInput → Bool
  | Sum.inl _ => false
  | Sum.inr _ => true

/-- The output polygon count of a union result, when that result is a
built tree. -/
def csg_outputCount : Option CSGInput → Option ℕ
  | some (Sum.inr t) => some (csg_polygons t).length
  | _ => none

/-- The combined fragment vertex count of a split result that produced both
fragments. -/
def fragLenSum : SplitPolygonResult → Option ℕ
  | ⟨some f, some b⟩ => some (f.data.points.length + b.data.points.length)
  | _ => none

/-- A triangle polygon used in concrete inputs. -/
def triPoly : Polygon := ⟨0, [⟨0, 0, 0⟩, ⟨1, 0, 0⟩, ⟨0, 1, 0⟩]⟩

/-- Whether a visited vertex is emitted into the front list (the source
comparison `d > -PLANE_EPSILON` of line 38). -/
def frontEmitB (pl : Plane) (p : Vec3) : Bool := decide (planeDist pl p > -PLANE_EPSILON)

/-- Whether a visited vertex is emitted into the back list (the source
comparison `d < PLANE_EPSILON` of line 41). -/
def backEmitB (pl : Plane) (p : Vec3) : Bool := decide (planeDist pl p < PLANE_EPSILON)

/-- Whether an edge strictly straddles the plane (the source condition of
line 44). -/
def straddleB (pl : Plane) (e : Vec3 × Vec3) : Bool :=
  decide ((planeDist pl e.1 < -PLANE_EPSILON ∧ planeDist pl e.2 > PLANE_EPSILON) ∨
    (planeDist pl e.1 > PLANE_EPSILON ∧ planeDist pl e.2 < -PLANE_EPSILON))

/-- The edges walked by the spanning split, as `(iv, jv)` pairs, starting
from the initial previous-vertex `iv`. -/
def edgePairs (iv : Vec3) (pts : List Vec3) : List (Vec3 × Vec3) := (iv :: pts).zip pts

/-- A parent polygon record used by the output-extraction witness. -/
def parPD : PolyData := ⟨1, [⟨0, 0, 0⟩, ⟨1, 0, 0⟩, ⟨0, 1, 0⟩], false⟩

/-- The parent polygon of the output-extraction witness. -/
def parPoly : CSGPolygon := ⟨parPD, []⟩

/-- A first split fragment of `parPoly`. -/
def childPoly1 : CSGPolygon := ⟨⟨1, [⟨0, 0, 0⟩, ⟨1, 0, 0⟩, ⟨1, 1, 0⟩], false⟩, [parPD]⟩

/-- A second split fragment of `parPoly`. -/
def childPoly2 : CSGPolygon := ⟨⟨1, [⟨0, 0, 0⟩, ⟨1, 1, 0⟩, ⟨0, 1, 0⟩], false⟩, [parPD]⟩

/-! ## Claims -/

/-- **C7.** In the spanning split, whenever an edge `(iv, jv)` strictly
straddles the plane (`d < -ε` and `jd > ε`, or conversely), the division
denominator `normal · (jv - iv)` of source line 45 is nonzero. -/
theorem claim_C7_denominator_nonzero (pl : Plane) (iv jv : Vec3)
    (h : (planeDist pl iv < -PLANE_EPSILON ∧ planeDist pl jv > PLANE_EPSILON) ∨
         (planeDist pl iv > PLANE_EPSILON ∧ planeDist pl jv < -PLANE_EPSILON)) :
    pl.x * (jv.x - iv.x) + pl.y * (jv.y - iv.y) + pl.z * (jv.z - iv.z) ≠ 0 := by
  have key : pl.x * (jv.x - iv.x) + pl.y * (jv.y - iv.y) + pl.z * (jv.z - iv.z)
      = planeDist pl jv - planeDist pl iv := by
    simp only [planeDist, vec3_dot, Plane.normal]
    ring
  have heps : (0 : ℚ) < PLANE_EPSILON := by norm_num [PLANE_EPSILON]
  rw [key]
  rcases h with ⟨h1, h2⟩ | ⟨h1, h2⟩ <;> intro hc <;> linarith

/-- Toggling the flipped bit twice is the identity. -/
theorem flipPoly_flipPoly (p : CSGPolygon) : flipPoly (flipPoly p) = p := by
  cases p with
  | mk d anc => cases d; simp [flipPoly]

/-- **C5.** Tree flip negates every node's plane, swaps the children and
toggles the flipped bit of every bundled polygon; it is involutive. -/
theorem claim_C5_flip_involutive :
    (∀ (pl : Plane) (polys : List CSGPolygon) (fc bc : CSGTree),
      csg_tree_flip (.node pl polys fc bc) =
        .node ⟨-pl.x, -pl.y, -pl.z, -pl.w⟩ (polys.map flipPoly)
          (csg_tree_flip bc) (csg_tree_flip fc)) ∧
    (∀ t : CSGTree, csg_tree_flip (csg_tree_flip t) = t) := by
  refine ⟨fun pl polys fc bc => rfl, fun t => ?_⟩
  induction t with
  | nil => rfl
  | node pl polys fc bc ihf ihb =>
    cases pl
    simp [csg_tree_flip, ihf, ihb, List.map_map, Function.comp_def, flipPoly_flipPoly]

/-- A polygon all of whose vertices are within `PLANE_EPSILON` of the plane
is classified coplanar by `CSGPolygon_split`. -/
theorem split_coplanar_of_within (pl : Plane) (p : CSGPolygon)
    (h : ∀ v ∈ p.data.points, |planeDist pl v| ≤ PLANE_EPSILON) :
    CSGPolygon_split pl p = ⟨none, none⟩ := by
  have key : ∀ (l : List Vec3) (fb : Bool × Bool), (∀ v ∈ l, |planeDist pl v| ≤ PLANE_EPSILON) →
      l.foldl
        (fun (fb : Bool × Bool) q =>
          let t := planeDist pl q
          if t < -PLANE_EPSILON then (fb.1, true)
          else if t > PLANE_EPSILON then (true, fb.2)
          else fb)
        fb = fb := by
    intro l
    induction l with
    | nil => intro fb _; rfl
    | cons a tl ih =>
      intro fb hl
      have ha := hl a (List.mem_cons_self a tl)
      rw [abs_le] at ha
      have h1 : ¬ planeDist pl a < -PLANE_EPSILON := by linarith [ha.1]
      have h2 : ¬ planeDist pl a > PLANE_EPSILON := by linarith [ha.2]
      simp only [List.foldl_cons, if_neg h1, if_neg h2]
      exact ih fb (fun v hv => hl v (List.mem_cons_of_mem a hv))
  unfold CSGPolygon_split
  rw [key _ _ h]
  rfl

/-- **C6.** Inserting a polygon whose vertices all lie within
`PLANE_EPSILON` of a node's plane appends it to that node's coplanar
bundle and leaves both children unchanged. -/
theorem claim_C6_coplanar_insert (pl : Plane) (polys : List CSGPolygon) (fc bc : CSGTree)
    (p : CSGPolygon) (n : Vec3) (w : ℚ)
    (h : ∀ v ∈ p.data.points, |planeDist pl v| ≤ PLANE_EPSILON) :
    csg_tree_addPolygon (.node pl polys fc bc) p n w = .node pl (polys ++ [p]) fc bc := by
  have hs := split_coplanar_of_within pl p h
  simp [csg_tree_addPolygon, hs]

/-- **C1.** When splitting a polygon by a clip node's plane yields neither
fragment (the coplanar case), the clipper routes the polygon as a front
fragment exactly when the dot product of the node's normal and the
polygon's plane normal exceeds the node's `w`, and as a back fragment
otherwise. -/
theorem claim_C1_coplanar_routing (pl : Plane) (polys : List CSGPolygon) (fc bc : CSGTree)
    (Q : CSGPolygon) (Qp : Plane) (res : List CSGPolygon)
    (h : CSGPolygon_split pl Q = ⟨none, none⟩) :
    csg_tree_clipPolygon (.node pl polys fc bc) Q Qp res =
      if vec3_dot pl.normal Qp.normal > pl.w then
        (if fc.isNil then res ++ [Q] else csg_tree_clipPolygon fc Q Qp res)
      else
        (if bc.isNil then res else csg_tree_clipPolygon bc Q Qp res) := by
  simp only [csg_tree_clipPolygon, h]
  by_cases hd : vec3_dot pl.normal Qp.normal > pl.w <;> simp [hd, Option.elim]

/-- A nonempty fold of the pairwise union always lands in a tree. -/
theorem foldl_union_isTree :
    ∀ (l : List CSGInput) (x : CSGInput), l ≠ [] →
      ∃ t : CSGTree,
        l.foldl (fun acc y => Sum.inr (csg_union_op acc (some y))) x = Sum.inr t := by
  intro l
  induction l with
  | nil => intro x hx; exact absurd rfl hx
  | cons b rest ih =>
    intro x _
    cases rest with
    | nil => exact ⟨csg_union_op x (some b), rfl⟩
    | cons c rest2 =>
      simpa using ih (Sum.inr (csg_union_op x (some b))) (List.cons_ne_nil c rest2)

/-- **C2 (amended).** For two or more inputs, `csg_union` folds the inputs
left-to-right with the pairwise union and returns a built tree; a singleton
input sequence is returned unchanged (so it is a tree only when the sole
element already is one, see the counterexample). -/
theorem claim_C2_fold_union (a b : CSGInput) (rest : List CSGInput) :
    csg_union (a :: b :: rest) =
      some ((b :: rest).foldl (fun acc y => Sum.inr (csg_union_op acc (some y))) a) ∧
    ∃ t : CSGTree, csg_union (a :: b :: rest) = some (Sum.inr t) := by
  refine ⟨rfl, ?_⟩
  obtain ⟨t, ht⟩ := foldl_union_isTree (b :: rest) a (List.cons_ne_nil b rest)
  exact ⟨t, by simp [csg_union, ht]⟩

/-- Counterexample to C2 as stated: a singleton input holding a polygon
list comes back as the raw polygon list, not as a built BSP tree. -/
theorem claim_C2_counterexample :
    csg_union [Sum.inl [triPoly]] = some (Sum.inl [triPoly]) ∧
    (csg_union [Sum.inl [triPoly]]).map csg_input_isTree = some false := by
  exact ⟨rfl, rfl⟩

/-- The epsilon is positive. -/
theorem PLANE_EPSILON_pos : (0 : ℚ) < PLANE_EPSILON := by norm_num [PLANE_EPSILON]

/-- One step of the spanning-split edge walk. -/
theorem splitSpanningLoop_cons (pl : Plane) (iv : Vec3) (d : ℚ) (jv : Vec3) (rest : List Vec3) :
    splitSpanningLoop pl iv d (jv :: rest) =
      (let jd := planeDist pl jv
       let r0 := splitSpanningLoop pl jv jd rest
       let fHere : List Vec3 := if d > -PLANE_EPSILON then [iv] else []
       let bHere : List Vec3 := if d < PLANE_EPSILON then [iv] else []
       if (d < -PLANE_EPSILON ∧ jd > PLANE_EPSILON) ∨ (d > PLANE_EPSILON ∧ jd < -PLANE_EPSILON) then
         let t := -d / (pl.x * (jv.x - iv.x) + pl.y * (jv.y - iv.y) + pl.z * (jv.z - iv.z))
         let v : Vec3 :=
           ⟨(jv.x - iv.x) * t + iv.x, (jv.y - iv.y) * t + iv.y, (jv.z - iv.z) * t + iv.z⟩
         (fHere ++ v :: r0.1, bHere ++ v :: r0.2)
       else (fHere ++ r0.1, bHere ++ r0.2)) := rfl

/-- The starting vertex of the walk is emitted into the front list whenever
its carried distance exceeds `-PLANE_EPSILON` (and the walk runs at all). -/
theorem mem_splitLoop_fst_self (pl : Plane) (iv : Vec3) (d : ℚ) (pts : List Vec3)
    (hne : pts ≠ []) (hd : d > -PLANE_EPSILON) :
    iv ∈ (splitSpanningLoop pl iv d pts).1 := by
  cases pts with
  | nil => exact absurd rfl hne
  | cons jv rest =>
    simp only [splitSpanningLoop]
    split_ifs with hs <;> simp [hd]

/-- The starting vertex of the walk is emitted into the back list whenever
its carried distance is below `PLANE_EPSILON`. -/
theorem mem_splitLoop_snd_self (pl : Plane) (iv : Vec3) (d : ℚ) (pts : List Vec3)
    (hne : pts ≠ []) (hd : d < PLANE_EPSILON) :
    iv ∈ (splitSpanningLoop pl iv d pts).2 := by
  cases pts with
  | nil => exact absurd rfl hne
  | cons jv rest =>
    simp only [splitSpanningLoop]
    split_ifs with hs <;> simp [hd]

/-- Every non-final vertex of the walked list with distance above
`-PLANE_EPSILON` is emitted into the front list. -/
theorem mem_splitLoop_fst_dropLast (pl : Plane) :
    ∀ (pts : List Vec3) (iv : Vec3) (d : ℚ) (q : Vec3),
      q ∈ pts.dropLast → planeDist pl q > -PLANE_EPSILON →
      q ∈ (splitSpanningLoop pl iv d pts).1 := by
  intro pts
  induction pts with
  | nil => intro iv d q hq _; simp at hq
  | cons jv rest ih =>
    intro iv d q hq hdq
    cases rest with
    | nil => simp at hq
    | cons c rest2 =>
      have hq2 : q = jv ∨ q ∈ (c :: rest2).dropLast := by
        simpa using hq
      have hrec : q ∈ (splitSpanningLoop pl jv (planeDist pl jv) (c :: rest2)).1 := by
        rcases hq2 with rfl | hq3
        · exact mem_splitLoop_fst_self pl q (planeDist pl q) (c :: rest2) (by simp) hdq
        · exact ih jv (planeDist pl jv) q hq3 hdq
      rw [splitSpanningLoop_cons]
      by_cases hs : ((d < -PLANE_EPSILON ∧ planeDist pl jv > PLANE_EPSILON) ∨
        (d > PLANE_EPSILON ∧ planeDist pl jv < -PLANE_EPSILON)) <;>
        simp [hs, hrec]

/-- Every non-final vertex of the walked list with distance below
`PLANE_EPSILON` is emitted into the back list. -/
theorem mem_splitLoop_snd_dropLast (pl : Plane) :
    ∀ (pts : List Vec3) (iv : Vec3) (d : ℚ) (q : Vec3),
      q ∈ pts.dropLast → planeDist pl q < PLANE_EPSILON →
      q ∈ (splitSpanningLoop pl iv d pts).2 := by
  intro pts
  induction pts with
  | nil => intro iv d q hq _; simp at hq
  | cons jv rest ih =>
    intro iv d q hq hdq
    cases rest with
    | nil => simp at hq
    | cons c rest2 =>
      have hq2 : q = jv ∨ q ∈ (c :: rest2).dropLast := by
        simpa using hq
      have hrec : q ∈ (splitSpanningLoop pl jv (planeDist pl jv) (c :: rest2)).2 := by
        rcases hq2 with rfl | hq3
        · exact mem_splitLoop_snd_self pl q (planeDist pl q) (c :: rest2) (by simp) hdq
        · exact ih jv (planeDist pl jv) q hq3 hdq
      rw [splitSpanningLoop_cons]
      by_cases hs : ((d < -PLANE_EPSILON ∧ planeDist pl jv > PLANE_EPSILON) ∨
        (d > PLANE_EPSILON ∧ planeDist pl jv < -PLANE_EPSILON)) <;>
        simp [hs, hrec]

/-- **C3 (amended).** In the spanning split, a visited vertex with signed
distance `d` is emitted into the front output list whenever `d > -ε` and
into the back output list whenever `d < +ε` — the source comparisons are
strict (`d > -PLANE_EPSILON`, `d < PLANE_EPSILON`, source lines 38 and 41),
so a vertex with `|d| < ε` appears in both lists, but a vertex at exactly
distance `-ε` (resp. `+ε`) is not emitted to the front (resp. back), contra
the claim's `≥`/`≤`; see the counterexample. -/
theorem claim_C3_strict_emission (pl : Plane) (pts : List Vec3) (q : Vec3) (hq : q ∈ pts) :
    (planeDist pl q > -PLANE_EPSILON → q ∈ (CSGPolygon_splitSpanning_lists pl pts).1) ∧
    (planeDist pl q < PLANE_EPSILON → q ∈ (CSGPolygon_splitSpanning_lists pl pts).2) := by
  have hne : pts ≠ [] := List.ne_nil_of_mem hq
  have hlast : pts.getLast? = some (pts.getLast hne) := List.getLast?_eq_getLast pts hne
  have hsplit : pts.dropLast ++ [pts.getLast hne] = pts := List.dropLast_append_getLast hne
  have hmem : q ∈ pts.dropLast ∨ q = pts.getLast hne := by
    have hq2 := hq
    rw [← hsplit] at hq2
    simpa using hq2
  unfold CSGPolygon_splitSpanning_lists
  rw [hlast]
  constructor <;> intro hd
  · rcases hmem with hmem | heq
    · exact mem_splitLoop_fst_dropLast pl pts _ _ q hmem hd
    · subst heq
      exact mem_splitLoop_fst_self pl _ _ pts hne hd
  · rcases hmem with hmem | heq
    · exact mem_splitLoop_snd_dropLast pl pts _ _ q hmem hd
    · subst heq
      exact mem_splitLoop_snd_self pl _ _ pts hne hd

/-- `edgePairs` unfolds one edge at a time. -/
theorem edgePairs_cons (iv jv : Vec3) (rest : List Vec3) :
    edgePairs iv (jv :: rest) = (iv, jv) :: edgePairs jv rest := rfl

/-- Length of the front output list of the edge walk: one entry per visited
vertex that satisfies the front emission test, plus one per straddling
edge. -/
theorem splitLoop_fst_length (pl : Plane) :
    ∀ (pts : List Vec3) (iv : Vec3),
      (splitSpanningLoop pl iv (planeDist pl iv) pts).1.length =
        (edgePairs iv pts).countP (fun e => frontEmitB pl e.1) +
        (edgePairs iv pts).countP (straddleB pl) := by
  intro pts
  induction pts with
  | nil => intro iv; simp [splitSpanningLoop, edgePairs]
  | cons jv rest ih =>
    intro iv
    rw [splitSpanningLoop_cons, edgePairs_cons, List.countP_cons, List.countP_cons]
    by_cases hs : ((planeDist pl iv < -PLANE_EPSILON ∧ planeDist pl jv > PLANE_EPSILON) ∨
        (planeDist pl iv > PLANE_EPSILON ∧ planeDist pl jv < -PLANE_EPSILON)) <;>
      by_cases hf : planeDist pl iv > -PLANE_EPSILON <;>
        simp [hs, hf, frontEmitB, straddleB, ih jv] <;> omega

/-- Length of the back output list of the edge walk. -/
theorem splitLoop_snd_length (pl : Plane) :
    ∀ (pts : List Vec3) (iv : Vec3),
      (splitSpanningLoop pl iv (planeDist pl iv) pts).2.length =
        (edgePairs iv pts).countP (fun e => backEmitB pl e.1) +
        (edgePairs iv pts).countP (straddleB pl) := by
  intro pts
  induction pts with
  | nil => intro iv; simp [splitSpanningLoop, edgePairs]
  | cons jv rest ih =>
    intro iv
    rw [splitSpanningLoop_cons, edgePairs_cons, List.countP_cons, List.countP_cons]
    by_cases hs : ((planeDist pl iv < -PLANE_EPSILON ∧ planeDist pl jv > PLANE_EPSILON) ∨
        (planeDist pl iv > PLANE_EPSILON ∧ planeDist pl jv < -PLANE_EPSILON)) <;>
      by_cases hb : planeDist pl iv < PLANE_EPSILON <;>
        simp [hs, hb, backEmitB, straddleB, ih jv] <;> omega

/-- The first components of the walked edges are the visited vertices. -/
theorem edgePairs_map_fst :
    ∀ (pts : List Vec3) (iv : Vec3), (edgePairs iv pts).map Prod.fst = (iv :: pts).dropLast := by
  intro pts
  induction pts with
  | nil => intro iv; simp [edgePairs]
  | cons jv rest ih =>
    intro iv
    rw [edgePairs_cons]
    simp only [List.map_cons, ih jv]
    rfl

/-- A strictly classified vertex is emitted to exactly one side, so over a
strictly classified list the two emission counts add up to the length. -/
theorem countP_front_add_back (pl : Plane) :
    ∀ l : List Vec3, (∀ p ∈ l, PLANE_EPSILON < |planeDist pl p|) →
      l.countP (frontEmitB pl) + l.countP (backEmitB pl) = l.length := by
  intro l
  induction l with
  | nil => intro _; simp
  | cons a t ih =>
    intro h
    have ha := h a (List.mem_cons_self a t)
    have ht := ih (fun p hp => h p (List.mem_cons_of_mem a hp))
    have heps := PLANE_EPSILON_pos
    rw [List.countP_cons, List.countP_cons]
    rcases lt_abs.mp ha with h1 | h2
    · have hfront : frontEmitB pl a = true := by
        simp only [frontEmitB, decide_eq_true_eq]
        linarith
      have hback : backEmitB pl a = false := by
        simp only [backEmitB, decide_eq_false_iff_not, not_lt]
        linarith
      simp [hfront, hback, ht]
      omega
    · have hfront : frontEmitB pl a = false := by
        simp only [frontEmitB, decide_eq_false_iff_not, not_lt]
        linarith
      have hback : backEmitB pl a = true := by
        simp only [backEmitB, decide_eq_true_eq]
        linarith
      simp [hfront, hback, ht]
      omega

/-- When some edge straddles, some visited vertex passes the front test and
some visited vertex passes the back test. -/
theorem counts_pos_of_straddle (pl : Plane) (iv0 : Vec3) (pts : List Vec3)
    (hlast : pts.getLast? = some iv0)
    (hs : 0 < (edgePairs iv0 pts).countP (straddleB pl)) :
    0 < (edgePairs iv0 pts).countP (fun e => frontEmitB pl e.1) ∧
    0 < (edgePairs iv0 pts).countP (fun e => backEmitB pl e.1) := by
  have hne : pts ≠ [] := by
    intro hnil
    rw [hnil] at hlast
    simp at hlast
  have heps := PLANE_EPSILON_pos
  -- membership in the visited list from membership in `iv0 :: pts`
  have hvisit : ∀ q : Vec3, q ∈ iv0 :: pts → q ∈ (edgePairs iv0 pts).map Prod.fst := by
    intro q hq
    rw [edgePairs_map_fst]
    have hlast' : pts.getLast hne = iv0 := by
      have h2 := List.getLast?_eq_getLast pts hne
      rw [hlast] at h2
      exact (Option.some.injEq _ _ ▸ h2).symm
    have hdrop : (iv0 :: pts).dropLast = iv0 :: pts.dropLast := by
      cases pts with
      | nil => exact absurd rfl hne
      | cons c r => rfl
    rw [hdrop]
    rcases List.mem_cons.mp hq with rfl | hq2
    · exact List.mem_cons_self _ _
    · have hsplit : pts.dropLast ++ [iv0] = pts := by
        have := List.dropLast_append_getLast hne
        rwa [hlast'] at this
      rw [← hsplit] at hq2
      rcases List.mem_append.mp hq2 with hq3 | hq3
      · exact List.mem_cons_of_mem _ hq3
      · simp only [List.mem_singleton] at hq3
        rw [hq3]
        exact List.mem_cons_self _ _
  obtain ⟨e, he, hse⟩ := List.countP_pos_iff.mp hs
  have he1 : e.1 ∈ iv0 :: pts := by
    obtain ⟨e1, e2⟩ := e
    exact (List.of_mem_zip he).1
  have he2 : e.2 ∈ iv0 :: pts := by
    obtain ⟨e1, e2⟩ := e
    exact List.mem_cons_of_mem _ (List.of_mem_zip he).2
  simp only [straddleB, decide_eq_true_eq] at hse
  have hfront : ∃ q ∈ iv0 :: pts, frontEmitB pl q = true := by
    rcases hse with ⟨_, h2⟩ | ⟨h1, _⟩
    · exact ⟨e.2, he2, by simp only [frontEmitB, decide_eq_true_eq]; linarith⟩
    · exact ⟨e.1, he1, by simp only [frontEmitB, decide_eq_true_eq]; linarith⟩
  have hback : ∃ q ∈ iv0 :: pts, backEmitB pl q = true := by
    rcases hse with ⟨h1, _⟩ | ⟨_, h2⟩
    · exact ⟨e.1, he1, by simp only [backEmitB, decide_eq_true_eq]; linarith⟩
    · exact ⟨e.2, he2, by simp only [backEmitB, decide_eq_true_eq]; linarith⟩
  constructor
  · obtain ⟨q, hq, hqf⟩ := hfront
    obtain ⟨e', he', he'q⟩ := List.mem_map.mp (hvisit q hq)
    exact List.countP_pos_iff.mpr ⟨e', he', by rw [he'q]; exact hqf⟩
  · obtain ⟨q, hq, hqb⟩ := hback
    obtain ⟨e', he', he'q⟩ := List.mem_map.mp (hvisit q hq)
    exact List.countP_pos_iff.mpr ⟨e', he', by rw [he'q]; exact hqb⟩

/-- **C4 (amended).** For a polygon whose vertices are all strictly
classified (`|d| > ε`) and whose edge walk has exactly two strictly
straddling edges (the generic spanning position; spanning alone does not
suffice, see the counterexample), the spanning split produces exactly two
fragments, and the sum of the fragments' vertex counts is the original
vertex count plus 4 — the two intersection points each appear in both
fragments (not plus 2, as the claim states; see the counterexample). -/
theorem claim_C4_spanning_counts (pl : Plane) (poly : CSGPolygon) (iv0 : Vec3)
    (hlast : poly.data.points.getLast? = some iv0)
    (hstrict : ∀ p ∈ poly.data.points, PLANE_EPSILON < |planeDist pl p|)
    (hstr2 : (edgePairs iv0 poly.data.points).countP (straddleB pl) = 2) :
    ∃ f b : CSGPolygon, CSGPolygon_splitSpanning pl poly = ⟨some f, some b⟩ ∧
      f.data.points.length + b.data.points.length = poly.data.points.length + 4 := by
  have hne : poly.data.points ≠ [] := by
    intro hnil
    rw [hnil] at hlast
    simp at hlast
  -- the output lists
  have hLdef : CSGPolygon_splitSpanning_lists pl poly.data.points =
      splitSpanningLoop pl iv0 (planeDist pl iv0) poly.data.points := by
    unfold CSGPolygon_splitSpanning_lists
    rw [hlast]
  have hflen := splitLoop_fst_length pl poly.data.points iv0
  have hblen := splitLoop_snd_length pl poly.data.points iv0
  rw [← hLdef] at hflen hblen
  rw [hstr2] at hflen hblen
  -- visited list facts
  have hdrop : (iv0 :: poly.data.points).dropLast = iv0 :: poly.data.points.dropLast := by
    cases hpts : poly.data.points with
    | nil => exact absurd hpts hne
    | cons c r => rfl
  have hmapfst := edgePairs_map_fst poly.data.points iv0
  have hcf : (edgePairs iv0 poly.data.points).countP (fun e => frontEmitB pl e.1) =
      (iv0 :: poly.data.points.dropLast).countP (frontEmitB pl) := by
    rw [← hdrop, ← hmapfst, List.countP_map]
    rfl
  have hcb : (edgePairs iv0 poly.data.points).countP (fun e => backEmitB pl e.1) =
      (iv0 :: poly.data.points.dropLast).countP (backEmitB pl) := by
    rw [← hdrop, ← hmapfst, List.countP_map]
    rfl
  -- strictness on the visited list
  have hlast' : poly.data.points.getLast hne = iv0 := by
    have h2 := List.getLast?_eq_getLast poly.data.points hne
    rw [hlast] at h2
    exact (Option.some.injEq _ _ ▸ h2).symm
  have hvstrict : ∀ p ∈ iv0 :: poly.data.points.dropLast,
      PLANE_EPSILON < |planeDist pl p| := by
    intro p hp
    rcases List.mem_cons.mp hp with rfl | hp2
    · exact hstrict p (hlast' ▸ List.getLast_mem hne)
    · exact hstrict p (List.dropLast_sublist poly.data.points |>.subset hp2)
  have htot := countP_front_add_back pl (iv0 :: poly.data.points.dropLast) hvstrict
  have hlen : (iv0 :: poly.data.points.dropLast).length = poly.data.points.length := by
    have hpos : 0 < poly.data.points.length := List.length_pos.mpr hne
    simp [List.length_dropLast]
    omega
  have hpos := counts_pos_of_straddle pl iv0 poly.data.points hlast (by omega)
  rw [hcf] at hflen hpos
  rw [hcb] at hblen hpos
  -- fragment production
  have hfgt : (CSGPolygon_splitSpanning_lists pl poly.data.points).1.length > 2 := by omega
  have hbgt : (CSGPolygon_splitSpanning_lists pl poly.data.points).2.length > 2 := by omega
  refine ⟨⟨⟨poly.data.color, (CSGPolygon_splitSpanning_lists pl poly.data.points).1,
      poly.data.flipped⟩, poly.data :: poly.ancestors⟩,
    ⟨⟨poly.data.color, (CSGPolygon_splitSpanning_lists pl poly.data.points).2,
      poly.data.flipped⟩, poly.data :: poly.ancestors⟩, ?_, ?_⟩
  · simp [CSGPolygon_splitSpanning, hfgt, hbgt]
  · show (CSGPolygon_splitSpanning_lists pl poly.data.points).1.length +
        (CSGPolygon_splitSpanning_lists pl poly.data.points).2.length =
        poly.data.points.length + 4
    omega

/-! ## Concrete evaluations

From this point on the rational arithmetic operations are made reducible
again so that `decide` can run the embedded code on concrete inputs; every
remaining proof is a concrete evaluation. -/

set_option allowUnsafeReducibility true in
attribute [semireducible] Rat.add Rat.mul Rat.sub Rat.inv

/-- Witness for C7 at a concrete straddling edge. -/
theorem claim_C7_witness :
    (⟨0, 0, 1, 0⟩ : Plane).x * ((⟨0, 0, 1⟩ : Vec3).x - (⟨0, 0, -1⟩ : Vec3).x) +
      (⟨0, 0, 1, 0⟩ : Plane).y * ((⟨0, 0, 1⟩ : Vec3).y - (⟨0, 0, -1⟩ : Vec3).y) +
      (⟨0, 0, 1, 0⟩ : Plane).z * ((⟨0, 0, 1⟩ : Vec3).z - (⟨0, 0, -1⟩ : Vec3).z) ≠ 0 :=
  claim_C7_denominator_nonzero ⟨0, 0, 1, 0⟩ ⟨0, 0, -1⟩ ⟨0, 0, 1⟩ (by decide)

/-- Witness for C6: a triangle on the root plane lands in the root bundle. -/
theorem claim_C6_witness :
    csg_tree_addPolygon (.node ⟨0, 0, 1, 0⟩ [] .nil .nil)
        ⟨⟨0, [⟨0, 0, 0⟩, ⟨1, 0, 0⟩, ⟨0, 1, 0⟩], false⟩, []⟩ ⟨0, 0, 1⟩ 0 =
      .node ⟨0, 0, 1, 0⟩ [⟨⟨0, [⟨0, 0, 0⟩, ⟨1, 0, 0⟩, ⟨0, 1, 0⟩], false⟩, []⟩] .nil .nil := by
  rw [claim_C6_coplanar_insert ⟨0, 0, 1, 0⟩ [] .nil .nil
    ⟨⟨0, [⟨0, 0, 0⟩, ⟨1, 0, 0⟩, ⟨0, 1, 0⟩], false⟩, []⟩ ⟨0, 0, 1⟩ 0 (by decide)]
  rfl

/-- Witness for C1: a coplanar, same-facing polygon at a leaf node survives
as a front fragment. -/
theorem claim_C1_witness :
    csg_tree_clipPolygon (.node ⟨0, 0, 1, 0⟩ [] .nil .nil)
        ⟨⟨7, [⟨0, 0, 0⟩, ⟨1, 0, 0⟩, ⟨0, 1, 0⟩], false⟩, []⟩ ⟨0, 0, 1, 0⟩ [] =
      [⟨⟨7, [⟨0, 0, 0⟩, ⟨1, 0, 0⟩, ⟨0, 1, 0⟩], false⟩, []⟩] := by
  rw [claim_C1_coplanar_routing ⟨0, 0, 1, 0⟩ [] .nil .nil
    ⟨⟨7, [⟨0, 0, 0⟩, ⟨1, 0, 0⟩, ⟨0, 1, 0⟩], false⟩, []⟩ ⟨0, 0, 1, 0⟩ [] (by decide)]
  decide

/-- Counterexample to C3 as stated: in a spanning polygon, the vertex at
signed distance exactly `-ε` satisfies `d ≥ -ε` but is not emitted into the
front output list — the source comparison of line 38 is strict. -/
theorem claim_C3_counterexample :
    planeDist ⟨0, 0, 1, 0⟩ ⟨0, 0, -PLANE_EPSILON⟩ ≥ -PLANE_EPSILON ∧
    planeDist ⟨0, 0, 1, 0⟩ ⟨1, 0, 1⟩ > PLANE_EPSILON ∧
    planeDist ⟨0, 0, 1, 0⟩ ⟨0, 1, -1⟩ < -PLANE_EPSILON ∧
    ⟨0, 0, -PLANE_EPSILON⟩ ∉
      (CSGPolygon_splitSpanning_lists ⟨0, 0, 1, 0⟩
        [⟨0, 0, -PLANE_EPSILON⟩, ⟨1, 0, 1⟩, ⟨0, 1, -1⟩]).1 := by decide

/-- Witness for C3 (amended): a strictly front vertex is emitted into the
front output list. -/
theorem claim_C3_witness :
    (⟨0, 0, 1⟩ : Vec3) ∈
      (CSGPolygon_splitSpanning_lists ⟨0, 0, 1, 0⟩
        [⟨0, 0, 1⟩, ⟨2, 0, 1⟩, ⟨0, 2, -1⟩]).1 :=
  (claim_C3_strict_emission ⟨0, 0, 1, 0⟩ [⟨0, 0, 1⟩, ⟨2, 0, 1⟩, ⟨0, 2, -1⟩]
    ⟨0, 0, 1⟩ (by decide)).1 (by decide)

/-- Counterexample to C4 as stated: a spanning triangle (vertices at
distances `1, 1, -1`) splits into two fragments whose combined vertex count
is `7 = 3 + 4`, not `3 + 2` as claimed. -/
theorem claim_C4_counterexample :
    planeDist ⟨0, 0, 1, 0⟩ ⟨0, 0, 1⟩ > PLANE_EPSILON ∧
    planeDist ⟨0, 0, 1, 0⟩ ⟨0, 2, -1⟩ < -PLANE_EPSILON ∧
    fragLenSum (CSGPolygon_splitSpanning ⟨0, 0, 1, 0⟩
      ⟨⟨0, [⟨0, 0, 1⟩, ⟨2, 0, 1⟩, ⟨0, 2, -1⟩], false⟩, []⟩) = some 7 ∧
    fragLenSum (CSGPolygon_splitSpanning ⟨0, 0, 1, 0⟩
      ⟨⟨0, [⟨0, 0, 1⟩, ⟨2, 0, 1⟩, ⟨0, 2, -1⟩], false⟩, []⟩) ≠ some (3 + 2) := by decide

/-- Witness for C4 (amended) at the same concrete triangle. -/
theorem claim_C4_witness :
    ∃ f b : CSGPolygon,
      CSGPolygon_splitSpanning ⟨0, 0, 1, 0⟩
          ⟨⟨0, [⟨0, 0, 1⟩, ⟨2, 0, 1⟩, ⟨0, 2, -1⟩], false⟩, []⟩ = ⟨some f, some b⟩ ∧
      f.data.points.length + b.data.points.length =
        (⟨⟨0, [⟨0, 0, 1⟩, ⟨2, 0, 1⟩, ⟨0, 2, -1⟩], false⟩, []⟩ : CSGPolygon).data.points.length
          + 4 :=
  claim_C4_spanning_counts ⟨0, 0, 1, 0⟩
    ⟨⟨0, [⟨0, 0, 1⟩, ⟨2, 0, 1⟩, ⟨0, 2, -1⟩], false⟩, []⟩ ⟨0, 2, -1⟩
    (by decide) (by decide) (by decide)

set_option maxRecDepth 20000 in
/-- **C8.** In output extraction, when an emitted polygon's parent already
has a recorded child in `byParent`, the recorded sibling is deleted from
the output set and the parent is emitted instead, recursively up the split
chain; and concretely, the output of `union(cube, tree(cube))` for the unit
cube has exactly 6 polygons. -/
theorem claim_C8_coalescence :
    (∀ (byP : List (CSGPolygon × CSGPolygon)) (allP : List (CSGPolygon × Bool))
        (p par found : CSGPolygon),
        p.parent = some par → mapGet byP par = some found →
        csgAdd byP allP p = csgAdd byP (mapDelete allP found) par) ∧
    csg_outputCount (csg_union [Sum.inl unitCube, Sum.inr (csg_tree (Sum.inl unitCube))]) =
      some 6 := by
  constructor
  · intro byP allP p par found hpar hfound
    obtain ⟨d, anc⟩ := p
    cases anc with
    | nil => simp [CSGPolygon.parent] at hpar
    | cons a r =>
      have hp : par = ⟨a, r⟩ := by
        simp only [CSGPolygon.parent] at hpar
        exact (Option.some.inj hpar).symm
      subst hp
      simp [csgAdd, csgAddAux, hfound]
  · decide

/-- Witness for C8's coalescence step at a concrete map state. -/
theorem claim_C8_witness :
    csgAdd [(parPoly, childPoly2)] [(childPoly2, false)] childPoly1 =
      csgAdd [(parPoly, childPoly2)] (mapDelete [(childPoly2, false)] childPoly2) parPoly :=
  claim_C8_coalescence.1 [(parPoly, childPoly2)] [(childPoly2, false)] childPoly1 parPoly
    childPoly2 (by decide) (by decide)
